import Mathlib

/-!
Shallow embedding of the study-group / class assignment optimiser.

The repository builds a CP-SAT model over boolean variables
`assign[(student_id, group)]`, solves it with a bounded-time solver, and
materialises the solution into a list of groups.  Here the model's hard
constraints become a predicate on a valuation of those variables, the
objective becomes a function computing the weighted penalty sum, and the
post-solver part of `solve` becomes a Lean function parameterised by the
solver's outcome (status plus valuation).
-/

namespace StudyGroups

/-- A student record as produced by the loaders: a dense 0-based `id`, a
display `name`, and a normalised `sex` (`"F"` or `"M"` after loading, but
`solve` itself accepts any string). -/
structure Student where
  id : Nat
  name : String
  sex : String
deriving DecidableEq, Repr

/-- A valuation of the boolean decision variables `assign[(sid, g)]`. -/
def Val : Type := Nat → Nat → Bool

/-- Numeric value of a boolean variable (CP-SAT booleans are 0/1 ints). -/
def boolVal (b : Bool) : Nat := if b then 1 else 0

/-- `G = ceil(n / group_size)`, the number of groups `solve` creates. -/
def numGroups (n gs : Nat) : Nat := (n + gs - 1) / gs

/-- `sum(assign[(sid, g)] for g in range(G))` — the per-student row sum. -/
def varSum (a : Val) (sid G : Nat) : Nat :=
  ((List.range G).map (fun g => boolVal (a sid g))).sum

/-- `sum(assign[(s.id, g)] for s in students)` — the occupancy of group `g`. -/
def groupCount (students : List Student) (a : Val) (g : Nat) : Nat :=
  (students.map (fun s => boolVal (a s.id g))).sum

/-- The female sublist, as computed by `solve`
(`[s for s in students if s["sex"] == "F"]`). -/
def females (students : List Student) : List Student :=
  students.filter (fun s => s.sex == "F")

/-- The male sublist (`[s for s in students if s["sex"] == "M"]`). -/
def males (students : List Student) : List Student :=
  students.filter (fun s => s.sex == "M")

/-- Hard constraint: each student is in exactly one group
(`model.Add(sum(...) == 1)`). -/
def exactlyOne (students : List Student) (a : Val) (G : Nat) : Prop :=
  ∀ s ∈ students, varSum a s.id G = 1

instance (students : List Student) (a : Val) (G : Nat) :
    Decidable (exactlyOne students a G) :=
  List.decidableBAll _ students

/-- Hard constraint: each group has at most `group_size` members
(`model.Add(sum(...) <= group_size)`). -/
def capacityOK (students : List Student) (a : Val) (G gs : Nat) : Prop :=
  ∀ g ∈ List.range G, groupCount students a g ≤ gs

instance (students : List Student) (a : Val) (G gs : Nat) :
    Decidable (capacityOK students a G gs) :=
  List.decidableBAll _ _

/-- Same-sex mode: for each group, a reified indicator forces either the
male count or the female count to zero; projecting the indicator out, every
group is all-F or all-M. -/
def sameSexOK (students : List Student) (a : Val) (G : Nat) : Prop :=
  ∀ g ∈ List.range G,
    groupCount (males students) a g = 0 ∨ groupCount (females students) a g = 0

instance (students : List Student) (a : Val) (G : Nat) :
    Decidable (sameSexOK students a G) :=
  List.decidableBAll _ _

/-- The guard of the mixed-mode rule:
`if females and males and len(females) >= G and len(males) >= G`. -/
def mixedGuard (students : List Student) (G : Nat) : Prop :=
  females students ≠ [] ∧ males students ≠ [] ∧
    G ≤ (females students).length ∧ G ≤ (males students).length

instance (students : List Student) (G : Nat) :
    Decidable (mixedGuard students G) :=
  inferInstanceAs (Decidable (females students ≠ [] ∧ males students ≠ [] ∧
    G ≤ (females students).length ∧ G ≤ (males students).length))

/-- Mixed mode: when the guard holds, every group must contain at least one
female and at least one male; otherwise no constraint is added. -/
def mixedOK (students : List Student) (a : Val) (G : Nat) : Prop :=
  mixedGuard students G →
    ∀ g ∈ List.range G,
      1 ≤ groupCount (females students) a g ∧ 1 ≤ groupCount (males students) a g

instance (students : List Student) (a : Val) (G : Nat) :
    Decidable (mixedOK students a G) :=
  inferInstanceAs (Decidable (mixedGuard students G → ∀ g ∈ List.range G, _ ∧ _))

/-- All hard constraints of the study-group model, for a valuation `a`:
the exactly-one and capacity constraints always, the same-sex disjunction
when `same_sex` is set, the mixed-mode rule otherwise. -/
def hardSat (gs : Nat) (same_sex : Bool) (students : List Student) (a : Val) :
    Prop :=
  exactlyOne students a (numGroups students.length gs) ∧
  capacityOK students a (numGroups students.length gs) gs ∧
  (same_sex = true → sameSexOK students a (numGroups students.length gs)) ∧
  (same_sex = false → mixedOK students a (numGroups students.length gs))

instance (gs : Nat) (same_sex : Bool) (students : List Student) (a : Val) :
    Decidable (hardSat gs same_sex students a) :=
  inferInstanceAs (Decidable (exactlyOne students a _ ∧ capacityOK students a _ gs ∧
    (same_sex = true → sameSexOK students a _) ∧
    (same_sex = false → mixedOK students a _)))

/-! Objective (weighted penalty sum) -/

/-- Weight of the per-group size-deviation term (`size_weight = 1`). -/
def size_weight : Nat := 1

/-- Weight of the per-group sex-imbalance term (`balance_weight = 2`). -/
def balance_weight : Nat := 2

/-- Weight of the prior-pairing term (`pair_weight = 10`). -/
def pair_weight : Nat := 10

/-- The per-group size deviation: the model posts
`AddAbsEquality(dev, size_g - group_size)`, so the auxiliary variable
`dev_g` is functionally `|size_g - group_size|`. -/
def sizeDev (students : List Student) (a : Val) (gs g : Nat) : Nat :=
  ((groupCount students a g : Int) - (gs : Int)).natAbs

/-- Sum of the weighted size-deviation terms over all groups. -/
def sizePenalty (students : List Student) (a : Val) (G gs : Nat) : Nat :=
  ((List.range G).map (fun g => sizeDev students a gs g * size_weight)).sum

/-- The per-group sex imbalance `|female_count - male_count|`
(`AddAbsEquality(imbalance, female_count - male_count)`). -/
def imbalance (students : List Student) (a : Val) (g : Nat) : Nat :=
  ((groupCount (females students) a g : Int) -
    (groupCount (males students) a g : Int)).natAbs

/-- Sum of the weighted imbalance terms over all groups (mixed mode only). -/
def balancePenalty (students : List Student) (a : Val) (G : Nat) : Nat :=
  ((List.range G).map (fun g => imbalance students a g * balance_weight)).sum

/-- Python's `str.strip()`: drop leading and trailing whitespace
(implemented over the character list so it is kernel-computable). -/
def pyStrip (s : String) : String :=
  ⟨((s.data.dropWhile Char.isWhitespace).reverse.dropWhile
      Char.isWhitespace).reverse⟩

/-- The name-resolution dictionary
`name_to_id = {s["name"].strip(): s["id"] for s in students}`: keys are the
stripped names, a later student with the same stripped name overrides an
earlier one, and `get` returns `none` for absent keys. -/
def nameToId (students : List Student) (nm : String) : Option Nat :=
  ((students.filter (fun s => pyStrip s.name == nm)).getLast?).map
    (fun s => s.id)

/-- Penalty contributed by one prior-together pair: zero when either name
does not resolve or both resolve to the same id; otherwise, for every group,
`pair_weight` times the product of the two assignment variables
(`AddMultiplicationEquality(both_in_g, [assign[(id1,g)], assign[(id2,g)]])`). -/
def pairPenalty (students : List Student) (a : Val) (G : Nat)
    (p : String × String) : Nat :=
  match nameToId students p.1, nameToId students p.2 with
  | some id1, some id2 =>
    if id1 = id2 then 0
    else ((List.range G).map
      (fun g => boolVal (a id1 g && a id2 g) * pair_weight)).sum
  | _, _ => 0

/-- The full objective `sum(penalties)` that the model minimizes. -/
def objective (gs : Nat) (same_sex : Bool) (students : List Student)
    (prior : List (String × String)) (a : Val) : Nat :=
  sizePenalty students a (numGroups students.length gs) gs +
    (if same_sex then 0
     else balancePenalty students a (numGroups students.length gs)) +
    (prior.map (pairPenalty students a (numGroups students.length gs))).sum

/-! Solver outcome and result materialisation -/

/-- CP-SAT solve statuses relevant to the driver. -/
inductive CpStatus where
  | optimal
  | feasible
  | infeasible
  | modelInvalid
  | unknown
deriving DecidableEq, Repr

/-- The outcome of `solver.Solve(model)`: a status and, read through
`solver.Value`, a valuation of the assignment variables. -/
structure SolverOutcome where
  status : CpStatus
  val : Val

/-- The ways `solve` raises. -/
inductive SolveError where
  | invalidGroupSize   -- `ValueError("group_size must be positive")`
  | solverFailed       -- `RuntimeError("Solver could not find a solution: ...")`
deriving DecidableEq, Repr

/-- The first group whose variable is set for student `sid` — the group the
materialisation loop (`for g in range(G): ... break`) picks. -/
def firstGroup (a : Val) (G sid : Nat) : Option Nat :=
  (List.range G).find? (fun g => a sid g)

/-- The materialised result: `groups[g]` collects, in input order, the
students whose first set group is `g`; a student with no set variable is
appended nowhere. -/
def buildGroups (students : List Student) (a : Val) (G : Nat) :
    List (List Student) :=
  (List.range G).map (fun g =>
    students.filter (fun s => firstGroup a G s.id == some g))

/-- `solve`, with the external solver call abstracted as `oracle`: the
empty-batch early return, the `group_size` validation, the status check and
the materialisation. The prior-together pairs only enter the objective, so
they do not influence the returned value. -/
def solve (group_size : Int) (same_sex : Bool) (students : List Student)
    (prior : List (String × String)) (oracle : SolverOutcome) :
    Except SolveError (List (List Student)) :=
  if students.length = 0 then .ok [[]]
  else if group_size ≤ 0 then .error .invalidGroupSize
  else if oracle.status = .optimal ∨ oracle.status = .feasible then
    .ok (buildGroups students oracle.val
      (numGroups students.length group_size.toNat))
  else .error .solverFailed

end StudyGroups

namespace ClassOpt

/-! The class-optimisation variant (`class-optimisation.py` with
`class_config.py`) -/

/-- A student row loaded from the CSV. -/
structure CStudent where
  id : Nat
  sex : String
  language : String
  subject : String
  origin : String
deriving DecidableEq, Repr

/-- `CLASSES` from `class_config.py`. -/
def CLASSES : List String :=
  ["Class_A", "Class_B", "Class_C", "Class_D", "Class_E",
   "Class_F", "Class_G", "Class_H", "Class_I"]

/-- `MAX_CLASS_SIZE` from `class_config.py`. -/
def MAX_CLASS_SIZE : Nat := 32

/-- `MIN_CLASS_SIZE` from `class_config.py`. -/
def MIN_CLASS_SIZE : Nat := 20

/-- `MIN_FEMALE_PER_CLASS` from `class_config.py`. -/
def MIN_FEMALE_PER_CLASS : Nat := 3

/-- `MIN_MALE_PER_CLASS` from `class_config.py`. -/
def MIN_MALE_PER_CLASS : Nat := 3

/-- `CLASS_BALANCE_WEIGHT` from `class_config.py`. -/
def CLASS_BALANCE_WEIGHT : Nat := 2

/-- A valuation of the boolean variables `assignments[(sid, c)]`. -/
def CVal : Type := Nat → String → Bool

/-- `sum(assignments[(s.id, c)] for s in students)` restricted to a
sublist — used for class sizes and per-sex counts. -/
def cCount (students : List CStudent) (b : CVal) (c : String) : Nat :=
  (students.map (fun s => StudyGroups.boolVal (b s.id c))).sum

/-- The hard constraints of the class model: exactly one class per student,
per-class female and male counts within `[MIN_*_PER_CLASS, len(students)-2]`,
and every class size within `[MIN_CLASS_SIZE, MAX_CLASS_SIZE]`. -/
def classHardSat (students : List CStudent) (b : CVal) : Prop :=
  (∀ s ∈ students,
    ((CLASSES.map (fun c => StudyGroups.boolVal (b s.id c))).sum = 1)) ∧
  (∀ c ∈ CLASSES,
    MIN_FEMALE_PER_CLASS ≤ cCount (students.filter (fun s => s.sex == "F")) b c ∧
    (cCount (students.filter (fun s => s.sex == "F")) b c : Int) ≤
      (students.length : Int) - 2 ∧
    MIN_MALE_PER_CLASS ≤ cCount (students.filter (fun s => s.sex == "M")) b c ∧
    (cCount (students.filter (fun s => s.sex == "M")) b c : Int) ≤
      (students.length : Int) - 2) ∧
  (∀ c ∈ CLASSES,
    MIN_CLASS_SIZE ≤ cCount students b c ∧ cCount students b c ≤ MAX_CLASS_SIZE)

instance (students : List CStudent) (b : CVal) :
    Decidable (classHardSat students b) :=
  inferInstanceAs (Decidable ((∀ s ∈ students, _ = 1) ∧
    (∀ c ∈ CLASSES, _ ≤ _ ∧ _ ≤ _ ∧ _ ≤ _ ∧ _ ≤ _) ∧
    (∀ c ∈ CLASSES, _ ≤ _ ∧ _ ≤ _)))

/-- `target_floor = len(students) // len(classes)`. -/
def target_floor (students : List CStudent) : Nat :=
  students.length / CLASSES.length

/-- `target_ceil = (len(students) + len(classes) - 1) // len(classes)`. -/
def target_ceil (students : List CStudent) : Nat :=
  (students.length + CLASSES.length - 1) / CLASSES.length

/-- The size-deviation auxiliary variables are functionally determined:
`AddAbsEquality(dev_floor, size - target_floor)`,
`AddAbsEquality(dev_ceil, size - target_ceil)`,
`AddMinEquality(dev, [dev_floor, dev_ceil])`. -/
def classSizeDev (students : List CStudent) (b : CVal) (c : String) : Nat :=
  min ((cCount students b c : Int) - (target_floor students : Int)).natAbs
      ((cCount students b c : Int) - (target_ceil students : Int)).natAbs

/-- The size-balance penalty term appended for class `c`
(`penalties.append(dev * CLASS_BALANCE_WEIGHT)`). -/
def classBalanceTerm (students : List CStudent) (b : CVal) (c : String) : Nat :=
  classSizeDev students b c * CLASS_BALANCE_WEIGHT

/-- The materialised per-class grouping (`class_grouping[c]`): every student
whose variable for `c` is set, in input order (this loop has no `break`). -/
def classGrouping (students : List CStudent) (b : CVal) (c : String) :
    List CStudent :=
  students.filter (fun s => b s.id c)

end ClassOpt

namespace StudyGroups

/-! Counting and materialisation lemmas -/

theorem countP_eq_sum_boolVal {α : Type} (l : List α) (p : α → Bool) :
    l.countP p = (l.map (fun x => boolVal (p x))).sum := by
  induction l with
  | nil => simp
  | cons x t ih =>
    rw [List.countP_cons, List.map_cons, List.sum_cons, ih, boolVal]
    cases p x <;> simp [Nat.add_comm]

theorem groupCount_eq_countP (students : List Student) (a : Val) (g : Nat) :
    groupCount students a g = students.countP (fun s => a s.id g) :=
  (countP_eq_sum_boolVal students _).symm

theorem length_filter_eq_groupCount (students : List Student) (a : Val)
    (g : Nat) :
    (students.filter (fun s => a s.id g)).length = groupCount students a g := by
  rw [groupCount_eq_countP, List.countP_eq_length_filter]

theorem varSum_eq_countP (a : Val) (sid G : Nat) :
    varSum a sid G = (List.range G).countP (fun g => a sid g) :=
  (countP_eq_sum_boolVal _ _).symm

theorem exists_mem_of_sum_boolVal_pos {α : Type} {l : List α} {p : α → Bool}
    (h : 0 < (l.map (fun x => boolVal (p x))).sum) : ∃ x ∈ l, p x := by
  rw [← countP_eq_sum_boolVal] at h
  exact List.countP_pos_iff.mp h

/-- When student `sid` has exactly one set variable, the group picked by the
materialisation loop is exactly the group whose variable is set. -/
theorem firstGroup_eq_iff {a : Val} {G sid : Nat}
    (h1 : varSum a sid G = 1) {g : Nat} (hg : g < G) :
    firstGroup a G sid = some g ↔ a sid g = true := by
  rw [varSum_eq_countP, List.countP_eq_length_filter] at h1
  obtain ⟨g0, hfil⟩ := List.length_eq_one.mp h1
  have hmemf : ∀ x, x ∈ (List.range G).filter (fun g => a sid g) ↔ x = g0 := by
    intro x; rw [hfil]; simp
  constructor
  · intro hfind
    have hp := List.find?_some hfind
    have hm := List.mem_of_find?_eq_some hfind
    have hgf : g ∈ (List.range G).filter (fun g => a sid g) :=
      List.mem_filter.mpr ⟨hm, hp⟩
    have hg0f : g0 ∈ (List.range G).filter (fun g => a sid g) := by
      rw [hfil]; exact List.mem_singleton.mpr rfl
    have := List.mem_filter.mp hg0f
    have hgg0 : g = g0 := (hmemf g).mp hgf
    subst hgg0
    exact hp
  · intro hag
    have hgf : g ∈ (List.range G).filter (fun g => a sid g) :=
      List.mem_filter.mpr ⟨List.mem_range.mpr hg, hag⟩
    have hgg0 : g = g0 := (hmemf g).mp hgf
    have hsome : (firstGroup a G sid).isSome := by
      unfold firstGroup
      rw [List.find?_isSome]
      exact ⟨g, List.mem_range.mpr hg, hag⟩
    obtain ⟨g', hg'⟩ := Option.isSome_iff_exists.mp hsome
    have hg'f : g' ∈ (List.range G).filter (fun g => a sid g) :=
      List.mem_filter.mpr ⟨List.mem_of_find?_eq_some hg', List.find?_some hg'⟩
    have : g' = g0 := (hmemf g').mp hg'f
    rw [hg', this, hgg0]

/-- When student `sid` has exactly one set variable there is a first set
group, and it lies in range. -/
theorem firstGroup_exists {a : Val} {G sid : Nat}
    (h1 : varSum a sid G = 1) :
    ∃ g, firstGroup a G sid = some g ∧ g < G := by
  rw [varSum_eq_countP] at h1
  have hpos : 0 < (List.range G).countP (fun g => a sid g) := by omega
  obtain ⟨g, hgm, hgp⟩ := List.countP_pos_iff.mp hpos
  have hsome : (firstGroup a G sid).isSome := by
    unfold firstGroup
    rw [List.find?_isSome]
    exact ⟨g, hgm, hgp⟩
  obtain ⟨g', hg'⟩ := Option.isSome_iff_exists.mp hsome
  exact ⟨g', hg', List.mem_range.mp (List.mem_of_find?_eq_some hg')⟩

theorem buildGroups_length (students : List Student) (a : Val) (G : Nat) :
    (buildGroups students a G).length = G := by
  simp [buildGroups]

/-- Under the exactly-one constraint, group `g` of the materialised result
is just the list of students whose variable for `g` is set. -/
theorem buildGroups_filter (students : List Student) (a : Val) (G : Nat)
    (hx : exactlyOne students a G) {g : Nat} (hg : g < G) :
    students.filter (fun s => firstGroup a G s.id == some g) =
      students.filter (fun s => a s.id g) := by
  apply List.filter_congr
  intro s hs
  have h1 := hx s hs
  have hiff := firstGroup_eq_iff h1 hg
  cases hag : a s.id g with
  | true => simp [hiff.mpr hag]
  | false =>
    rw [beq_eq_false_iff_ne]
    intro hfind
    rw [hiff.mp hfind] at hag
    simp at hag

theorem mem_buildGroups_iff (students : List Student) (a : Val) (G : Nat)
    (gr : List Student) :
    gr ∈ buildGroups students a G ↔
      ∃ g < G,
        gr = students.filter (fun s => firstGroup a G s.id == some g) := by
  unfold buildGroups
  simp only [List.mem_map, List.mem_range]
  constructor
  · rintro ⟨g, hg, rfl⟩; exact ⟨g, hg, rfl⟩
  · rintro ⟨g, hg, rfl⟩; exact ⟨g, hg, rfl⟩

/-- Summing an indicator of one index over `range G` yields its value. -/
theorem sum_range_if_eq {G g0 : Nat} (c : Nat) (h : g0 < G) :
    ((List.range G).map (fun g => if g0 = g then c else 0)).sum = c := by
  induction G with
  | zero => omega
  | succ n ih =>
    rw [List.range_succ, List.map_append, List.sum_append]
    by_cases hg : g0 = n
    · subst hg
      have hz : ((List.range g0).map (fun g => if g0 = g then c else 0)).sum
          = 0 := by
        apply List.sum_eq_zero
        intro x hx
        obtain ⟨g, hgm, rfl⟩ := List.mem_map.mp hx
        have hlt := List.mem_range.mp hgm
        rw [if_neg (by omega)]
      simp [hz]
    · have h' : g0 < n := by omega
      rw [ih h']
      simp [hg]

/-- Exchanging the order of a double sum over two lists. -/
theorem sum_map_swap {α β : Type} (l : List α) (r : List β) (f : α → β → Nat) :
    (l.map (fun x => (r.map (fun y => f x y)).sum)).sum =
    (r.map (fun y => (l.map (fun x => f x y)).sum)).sum := by
  induction l with
  | nil => simp
  | cons x t ih =>
    simp only [List.map_cons, List.sum_cons]
    rw [ih, ← List.sum_map_add]

/-- Under the exactly-one constraint, the group sizes sum to the number of
students. -/
theorem sum_groupCount (students : List Student) (a : Val) (G : Nat)
    (hx : exactlyOne students a G) :
    ((List.range G).map (fun g => groupCount students a g)).sum =
      students.length := by
  unfold groupCount
  rw [sum_map_swap (List.range G) students (fun g s => boolVal (a s.id g))]
  have hone : ∀ s ∈ students,
      ((List.range G).map (fun g => boolVal (a s.id g))).sum = 1 := hx
  rw [List.map_congr_left hone, List.map_const']
  simp

/-- Inverting a successful `solve` call on a non-empty batch: the group
size was positive, the status was optimal or feasible, and the result is
the materialisation of the oracle's valuation. -/
theorem solve_ok_inv {group_size : Int} {same_sex : Bool}
    {students : List Student} {prior : List (String × String)}
    {oracle : SolverOutcome} {groups : List (List Student)}
    (hne : students ≠ [])
    (hret : solve group_size same_sex students prior oracle = .ok groups) :
    0 < group_size ∧
    (oracle.status = .optimal ∨ oracle.status = .feasible) ∧
    groups = buildGroups students oracle.val
      (numGroups students.length group_size.toNat) := by
  have hlen : ¬ students.length = 0 := fun h => hne (List.length_eq_zero.mp h)
  unfold solve at hret
  rw [if_neg hlen] at hret
  by_cases hgs : group_size ≤ 0
  · rw [if_pos hgs] at hret; cases hret
  · rw [if_neg hgs] at hret
    by_cases hst : oracle.status = .optimal ∨ oracle.status = .feasible
    · rw [if_pos hst] at hret
      refine ⟨by omega, hst, ?_⟩
      injection hret with h
      exact h.symm
    · rw [if_neg hst] at hret; cases hret

/-- Per-element count of the flattened materialised groups. -/
theorem count_flatten_buildGroups (students : List Student) (a : Val)
    (G : Nat) (hx : exactlyOne students a G) (x : Student) :
    (buildGroups students a G).flatten.count x = students.count x := by
  rw [List.count_flatten]
  unfold buildGroups
  rw [List.map_map]
  have hterm : ∀ g ∈ List.range G,
      (List.count x ∘ fun g =>
        students.filter (fun s => firstGroup a G s.id == some g)) g =
      if firstGroup a G x.id = some g then students.count x else 0 := by
    intro g _
    simp only [Function.comp]
    by_cases hfx : firstGroup a G x.id = some g
    · rw [if_pos hfx, List.count_filter]
      simp [hfx]
    · rw [if_neg hfx]
      apply List.count_eq_zero.mpr
      intro hmem
      have hp := (List.mem_filter.mp hmem).2
      exact hfx (by simpa using hp)
  rw [List.map_congr_left hterm]
  by_cases hmem : x ∈ students
  · obtain ⟨g0, hfg0, hg0lt⟩ := firstGroup_exists (hx x hmem)
    have heq : ∀ g ∈ List.range G,
        (if firstGroup a G x.id = some g then students.count x else 0) =
        if g0 = g then students.count x else 0 := by
      intro g _
      rw [hfg0]
      simp [Option.some.injEq]
    rw [List.map_congr_left heq]
    exact sum_range_if_eq _ hg0lt
  · have hc0 : students.count x = 0 := List.count_eq_zero.mpr hmem
    rw [hc0]
    apply List.sum_eq_zero
    intro y hy
    obtain ⟨g, _, rfl⟩ := List.mem_map.mp hy
    split <;> rfl

/-- C1: for every call to `solve` with a non-empty student list, when
the solver status is OPTIMAL or FEASIBLE (so the valuation satisfies the
model), the returned groups partition the input: the concatenation of the
groups is a permutation of the input list (no omission, no duplication) and
the group sizes sum to `N`. -/
theorem solve_returns_partition (group_size : Int) (same_sex : Bool)
    (students : List Student) (prior : List (String × String))
    (oracle : SolverOutcome) (groups : List (List Student))
    (hne : students ≠ [])
    (hfeas : hardSat group_size.toNat same_sex students oracle.val)
    (hret : solve group_size same_sex students prior oracle = .ok groups) :
    groups.flatten.Perm students ∧
      (groups.map List.length).sum = students.length := by
  obtain ⟨_, _, rfl⟩ := solve_ok_inv hne hret
  have hx : exactlyOne students oracle.val
      (numGroups students.length group_size.toNat) := hfeas.1
  have hperm : (buildGroups students oracle.val
      (numGroups students.length group_size.toNat)).flatten.Perm students := by
    rw [List.perm_iff_count]
    intro x
    exact count_flatten_buildGroups students oracle.val _ hx x
  refine ⟨hperm, ?_⟩
  have hlen := hperm.length_eq
  rw [List.length_flatten] at hlen
  exact hlen

/-- Witness for C1 at a concrete input: two students, group size 2, mixed
mode, an optimal oracle placing both in group 0. -/
theorem solve_returns_partition_witness :
    ([[⟨0, "A", "F"⟩, ⟨1, "B", "M"⟩]] : List (List Student)).flatten.Perm
        [⟨0, "A", "F"⟩, ⟨1, "B", "M"⟩] ∧
      (([[⟨0, "A", "F"⟩, ⟨1, "B", "M"⟩]] : List (List Student)).map
        List.length).sum = ([⟨0, "A", "F"⟩, ⟨1, "B", "M"⟩] : List Student).length :=
  solve_returns_partition 2 false [⟨0, "A", "F"⟩, ⟨1, "B", "M"⟩] []
    ⟨.optimal, fun _ g => g == 0⟩ [[⟨0, "A", "F"⟩, ⟨1, "B", "M"⟩]]
    (by decide) (by decide) rfl

end StudyGroups

namespace ClassOpt

theorem cCount_eq_countP (students : List CStudent) (b : CVal) (c : String) :
    cCount students b c = students.countP (fun s => b s.id c) :=
  (StudyGroups.countP_eq_sum_boolVal students _).symm

theorem classGrouping_length (students : List CStudent) (b : CVal)
    (c : String) :
    (classGrouping students b c).length = cCount students b c := by
  rw [cCount_eq_countP, List.countP_eq_length_filter, classGrouping]

end ClassOpt

namespace StudyGroups

/-- C2: in every returned solution every bin's size lies within its
configured capacity interval — in the group variant every materialised
group has at most `group_size` members, and in the class variant every
materialised class has between `MIN_CLASS_SIZE` and `MAX_CLASS_SIZE`
members. -/
theorem bin_sizes_within_capacity (group_size : Int) (same_sex : Bool)
    (students : List Student) (prior : List (String × String))
    (oracle : SolverOutcome) (groups : List (List Student))
    (cstudents : List ClassOpt.CStudent) (b : ClassOpt.CVal)
    (hne : students ≠ [])
    (hfeas : hardSat group_size.toNat same_sex students oracle.val)
    (hret : solve group_size same_sex students prior oracle = .ok groups)
    (hfeasC : ClassOpt.classHardSat cstudents b) :
    (∀ gr ∈ groups, gr.length ≤ group_size.toNat) ∧
    (∀ c ∈ ClassOpt.CLASSES,
      ClassOpt.MIN_CLASS_SIZE ≤ (ClassOpt.classGrouping cstudents b c).length ∧
      (ClassOpt.classGrouping cstudents b c).length ≤
        ClassOpt.MAX_CLASS_SIZE) := by
  obtain ⟨_, _, rfl⟩ := solve_ok_inv hne hret
  constructor
  · intro gr hgr
    obtain ⟨g, hg, rfl⟩ :=
      (mem_buildGroups_iff students oracle.val _ gr).mp hgr
    rw [buildGroups_filter students oracle.val _ hfeas.1 hg,
      length_filter_eq_groupCount]
    exact hfeas.2.1 g (List.mem_range.mpr hg)
  · intro c hc
    rw [ClassOpt.classGrouping_length]
    exact hfeasC.2.2 c hc

end StudyGroups

namespace ClassOpt

/-- Concrete batch of 189 students (alternating sexes) used to witness the
class-variant constraints: student `i` goes to class `i % 9`. -/
def cstudentsW : List CStudent :=
  (List.range 189).map
    (fun i => ⟨i, if i % 2 == 0 then "F" else "M", "", "", ""⟩)

/-- Concrete class valuation for the witness batch. -/
def bW : CVal := fun sid c => CLASSES.indexOf c == sid % 9

end ClassOpt

namespace StudyGroups

set_option maxRecDepth 10000 in
/-- Witness for C2 at concrete inputs: the two-student group instance and a
189-student class instance with 21 students per class. -/
theorem bin_sizes_within_capacity_witness :
    (∀ gr ∈ ([[⟨0, "A", "F"⟩, ⟨1, "B", "M"⟩]] : List (List Student)),
      gr.length ≤ (2 : Int).toNat) ∧
    (∀ c ∈ ClassOpt.CLASSES,
      ClassOpt.MIN_CLASS_SIZE ≤
        (ClassOpt.classGrouping ClassOpt.cstudentsW ClassOpt.bW c).length ∧
      (ClassOpt.classGrouping ClassOpt.cstudentsW ClassOpt.bW c).length ≤
        ClassOpt.MAX_CLASS_SIZE) :=
  bin_sizes_within_capacity 2 false [⟨0, "A", "F"⟩, ⟨1, "B", "M"⟩] []
    ⟨.optimal, fun _ g => g == 0⟩ [[⟨0, "A", "F"⟩, ⟨1, "B", "M"⟩]]
    ClassOpt.cstudentsW ClassOpt.bW
    (by decide) (by decide) rfl (by decide)

theorem numGroups_pos {n gs : Nat} (hn : 1 ≤ n) (hgs : 1 ≤ gs) :
    1 ≤ numGroups n gs := by
  unfold numGroups
  rw [Nat.le_div_iff_mul_le hgs]
  omega

/-- The number of female members of materialised group `g` equals the
model's female count for `g`, and likewise for males. -/
theorem countP_sex_filter (students : List Student) (a : Val) (g : Nat)
    (sx : String) :
    ((students.filter (fun s => a s.id g)).countP (fun s => s.sex == sx)) =
      groupCount (students.filter (fun s => s.sex == sx)) a g := by
  rw [groupCount_eq_countP, List.countP_filter, List.countP_filter]
  exact List.countP_congr (fun x _ => by
    constructor <;> intro h <;> simpa [Bool.and_comm] using h)

/-- C3: in mixed mode, when there are at least `K` students of each sex
(`K` the number of groups), every returned group contains at least one
female and one male; and when the guard fails the rule contributes nothing:
the hard-constraint set collapses to exactly-one plus capacity, and the
objective never contains a term for the rule in the first place. -/
theorem mixed_composition_rule (group_size : Int)
    (students : List Student) (prior : List (String × String))
    (oracle : SolverOutcome) (groups : List (List Student))
    (hne : students ≠ [])
    (hF : numGroups students.length group_size.toNat ≤
      (females students).length)
    (hM : numGroups students.length group_size.toNat ≤
      (males students).length)
    (hfeas : hardSat group_size.toNat false students oracle.val)
    (hret : solve group_size false students prior oracle = .ok groups) :
    (∀ gr ∈ groups, (∃ s ∈ gr, s.sex = "F") ∧ (∃ s ∈ gr, s.sex = "M")) ∧
    (∀ students' : List Student, ∀ a : Val,
      ¬ mixedGuard students' (numGroups students'.length group_size.toNat) →
      (hardSat group_size.toNat false students' a ↔
        exactlyOne students' a (numGroups students'.length group_size.toNat) ∧
        capacityOK students' a (numGroups students'.length group_size.toNat)
          group_size.toNat)) ∧
    (∀ students' : List Student, ∀ prior' : List (String × String), ∀ a : Val,
      objective group_size.toNat false students' prior' a =
        sizePenalty students' a
            (numGroups students'.length group_size.toNat) group_size.toNat +
          balancePenalty students' a
            (numGroups students'.length group_size.toNat) +
          (prior'.map (pairPenalty students' a
            (numGroups students'.length group_size.toNat))).sum) := by
  obtain ⟨hgs, _, rfl⟩ := solve_ok_inv hne hret
  refine ⟨?_, ?_, ?_⟩
  · intro gr hgr
    obtain ⟨g, hg, rfl⟩ :=
      (mem_buildGroups_iff students oracle.val _ gr).mp hgr
    rw [buildGroups_filter students oracle.val _ hfeas.1 hg]
    have hG1 : 1 ≤ numGroups students.length group_size.toNat :=
      numGroups_pos (List.length_pos.mpr hne) (by omega)
    have hguard : mixedGuard students
        (numGroups students.length group_size.toNat) := by
      refine ⟨?_, ?_, hF, hM⟩
      · exact List.length_pos.mp (by omega)
      · exact List.length_pos.mp (by omega)
    have hmix := hfeas.2.2.2 rfl hguard g (List.mem_range.mpr hg)
    constructor
    · obtain ⟨s, hsm, hsp⟩ := exists_mem_of_sum_boolVal_pos hmix.1
      have hmem := List.mem_filter.mp hsm
      exact ⟨s, List.mem_filter.mpr ⟨hmem.1, hsp⟩, by simpa using hmem.2⟩
    · obtain ⟨s, hsm, hsp⟩ := exists_mem_of_sum_boolVal_pos hmix.2
      have hmem := List.mem_filter.mp hsm
      exact ⟨s, List.mem_filter.mpr ⟨hmem.1, hsp⟩, by simpa using hmem.2⟩
  · intro students' a hguard
    constructor
    · intro h; exact ⟨h.1, h.2.1⟩
    · intro h
      refine ⟨h.1, h.2, ?_, ?_⟩
      · intro hcontra; cases hcontra
      · intro _ hg; exact absurd hg hguard
  · intro students' prior' a
    rfl

/-- Witness for C3: ten students, six F and four M, group size 5, two
groups, both sexes at least as numerous as the group count. -/
theorem mixed_composition_rule_witness :
    (∀ gr ∈ ([[⟨0, "a0", "F"⟩, ⟨1, "a1", "F"⟩, ⟨2, "a2", "F"⟩, ⟨6, "a6", "M"⟩,
        ⟨7, "a7", "M"⟩],
       [⟨3, "a3", "F"⟩, ⟨4, "a4", "F"⟩, ⟨5, "a5", "F"⟩, ⟨8, "a8", "M"⟩,
        ⟨9, "a9", "M"⟩]] : List (List Student)),
      (∃ s ∈ gr, s.sex = "F") ∧ (∃ s ∈ gr, s.sex = "M")) ∧
    (∀ students' : List Student, ∀ a : Val,
      ¬ mixedGuard students' (numGroups students'.length (5 : Int).toNat) →
      (hardSat (5 : Int).toNat false students' a ↔
        exactlyOne students' a (numGroups students'.length (5 : Int).toNat) ∧
        capacityOK students' a (numGroups students'.length (5 : Int).toNat)
          (5 : Int).toNat)) ∧
    (∀ students' : List Student, ∀ prior' : List (String × String), ∀ a : Val,
      objective (5 : Int).toNat false students' prior' a =
        sizePenalty students' a
            (numGroups students'.length (5 : Int).toNat) (5 : Int).toNat +
          balancePenalty students' a
            (numGroups students'.length (5 : Int).toNat) +
          (prior'.map (pairPenalty students' a
            (numGroups students'.length (5 : Int).toNat))).sum) :=
  mixed_composition_rule 5
    [⟨0, "a0", "F"⟩, ⟨1, "a1", "F"⟩, ⟨2, "a2", "F"⟩, ⟨3, "a3", "F"⟩,
     ⟨4, "a4", "F"⟩, ⟨5, "a5", "F"⟩, ⟨6, "a6", "M"⟩, ⟨7, "a7", "M"⟩,
     ⟨8, "a8", "M"⟩, ⟨9, "a9", "M"⟩] []
    ⟨.optimal, fun sid g => (decide (sid < 3) || sid == 6 || sid == 7) == (g == 0)⟩
    [[⟨0, "a0", "F"⟩, ⟨1, "a1", "F"⟩, ⟨2, "a2", "F"⟩, ⟨6, "a6", "M"⟩,
      ⟨7, "a7", "M"⟩],
     [⟨3, "a3", "F"⟩, ⟨4, "a4", "F"⟩, ⟨5, "a5", "F"⟩, ⟨8, "a8", "M"⟩,
      ⟨9, "a9", "M"⟩]]
    (by decide) (by decide) (by decide) (by decide) rfl

/-- C4: in same-sex mode every returned group is homogeneous in sex —
its male count is zero or its female count is zero, so no group contains
both an F and an M student. -/
theorem same_sex_groups_homogeneous (group_size : Int)
    (students : List Student) (prior : List (String × String))
    (oracle : SolverOutcome) (groups : List (List Student))
    (hne : students ≠ [])
    (hfeas : hardSat group_size.toNat true students oracle.val)
    (hret : solve group_size true students prior oracle = .ok groups) :
    ∀ gr ∈ groups,
      (gr.countP (fun s => s.sex == "M") = 0 ∨
        gr.countP (fun s => s.sex == "F") = 0) ∧
      ¬ ((∃ s ∈ gr, s.sex = "F") ∧ (∃ s ∈ gr, s.sex = "M")) := by
  obtain ⟨_, _, rfl⟩ := solve_ok_inv hne hret
  intro gr hgr
  obtain ⟨g, hg, rfl⟩ :=
    (mem_buildGroups_iff students oracle.val _ gr).mp hgr
  rw [buildGroups_filter students oracle.val _ hfeas.1 hg]
  have hss := hfeas.2.2.1 rfl g (List.mem_range.mpr hg)
  have hMeq : (students.filter (fun s => oracle.val s.id g)).countP
      (fun s => s.sex == "M") = groupCount (males students) oracle.val g :=
    countP_sex_filter students oracle.val g "M"
  have hFeq : (students.filter (fun s => oracle.val s.id g)).countP
      (fun s => s.sex == "F") = groupCount (females students) oracle.val g :=
    countP_sex_filter students oracle.val g "F"
  constructor
  · cases hss with
    | inl h => exact Or.inl (by rw [hMeq]; exact h)
    | inr h => exact Or.inr (by rw [hFeq]; exact h)
  · rintro ⟨⟨sF, hsFm, hsF⟩, ⟨sM, hsMm, hsM⟩⟩
    cases hss with
    | inl h =>
      rw [groupCount_eq_countP] at h
      have hmem := List.mem_filter.mp hsMm
      have hnone := List.countP_eq_zero.mp h sM
        (List.mem_filter.mpr ⟨hmem.1, by simp [hsM]⟩)
      exact hnone (by simpa using hmem.2)
    | inr h =>
      rw [groupCount_eq_countP] at h
      have hmem := List.mem_filter.mp hsFm
      have hnone := List.countP_eq_zero.mp h sF
        (List.mem_filter.mpr ⟨hmem.1, by simp [hsF]⟩)
      exact hnone (by simpa using hmem.2)

/-- Witness for C4: two female students in one group under same-sex mode. -/
theorem same_sex_groups_homogeneous_witness :
    (([⟨0, "A", "F"⟩, ⟨1, "B", "F"⟩] : List Student).countP
        (fun s => s.sex == "M") = 0 ∨
      ([⟨0, "A", "F"⟩, ⟨1, "B", "F"⟩] : List Student).countP
        (fun s => s.sex == "F") = 0) ∧
    ¬ ((∃ s ∈ ([⟨0, "A", "F"⟩, ⟨1, "B", "F"⟩] : List Student), s.sex = "F") ∧
       (∃ s ∈ ([⟨0, "A", "F"⟩, ⟨1, "B", "F"⟩] : List Student), s.sex = "M")) :=
  same_sex_groups_homogeneous 2 [⟨0, "A", "F"⟩, ⟨1, "B", "F"⟩] []
    ⟨.optimal, fun _ g => g == 0⟩ [[⟨0, "A", "F"⟩, ⟨1, "B", "F"⟩]]
    (by decide) (by decide) rfl
    [⟨0, "A", "F"⟩, ⟨1, "B", "F"⟩] (by decide)

/-- C5: the class-variant size-balance term for every class is the
weight times the distance from the class size to the nearer of
`floor(N/K)` and `ceil(N/K)`, and it vanishes exactly when the size hits
one of the two targets; the group-variant penalty is the weighted absolute
deviation `|size - group_size|` measured directly against the configured
maximum group size. -/
theorem size_balance_penalty_terms (cstudents : List ClassOpt.CStudent)
    (b : ClassOpt.CVal) (students : List Student) (a : Val) (G gs : Nat) :
    (∀ c ∈ ClassOpt.CLASSES,
      ClassOpt.classBalanceTerm cstudents b c =
        ClassOpt.CLASS_BALANCE_WEIGHT *
          min (((ClassOpt.cCount cstudents b c : Int) -
              (ClassOpt.target_floor cstudents : Int)).natAbs)
            (((ClassOpt.cCount cstudents b c : Int) -
              (ClassOpt.target_ceil cstudents : Int)).natAbs) ∧
      (ClassOpt.classBalanceTerm cstudents b c = 0 ↔
        ClassOpt.cCount cstudents b c = ClassOpt.target_floor cstudents ∨
        ClassOpt.cCount cstudents b c = ClassOpt.target_ceil cstudents)) ∧
    sizePenalty students a G gs =
      ((List.range G).map
        (fun g => ((groupCount students a g : Int) - (gs : Int)).natAbs)).sum := by
  constructor
  · intro c _
    constructor
    · unfold ClassOpt.classBalanceTerm ClassOpt.classSizeDev
      rw [Nat.mul_comm]
    · unfold ClassOpt.classBalanceTerm ClassOpt.classSizeDev
        ClassOpt.CLASS_BALANCE_WEIGHT
      omega
  · unfold sizePenalty sizeDev size_weight
    simp

/-- Witness for C5 at a concrete instance: two students, one class picked
from the configuration, group geometry `G = 1`, `gs = 2`. -/
theorem size_balance_penalty_terms_witness :
    (∀ c ∈ ClassOpt.CLASSES,
      ClassOpt.classBalanceTerm [⟨0, "F", "", "", ""⟩, ⟨1, "M", "", "", ""⟩]
          (fun _ _ => true) c =
        ClassOpt.CLASS_BALANCE_WEIGHT *
          min (((ClassOpt.cCount [⟨0, "F", "", "", ""⟩, ⟨1, "M", "", "", ""⟩]
              (fun _ _ => true) c : Int) -
              (ClassOpt.target_floor
                [⟨0, "F", "", "", ""⟩, ⟨1, "M", "", "", ""⟩] : Int)).natAbs)
            (((ClassOpt.cCount [⟨0, "F", "", "", ""⟩, ⟨1, "M", "", "", ""⟩]
              (fun _ _ => true) c : Int) -
              (ClassOpt.target_ceil
                [⟨0, "F", "", "", ""⟩, ⟨1, "M", "", "", ""⟩] : Int)).natAbs) ∧
      (ClassOpt.classBalanceTerm [⟨0, "F", "", "", ""⟩, ⟨1, "M", "", "", ""⟩]
          (fun _ _ => true) c = 0 ↔
        ClassOpt.cCount [⟨0, "F", "", "", ""⟩, ⟨1, "M", "", "", ""⟩]
            (fun _ _ => true) c =
          ClassOpt.target_floor
            [⟨0, "F", "", "", ""⟩, ⟨1, "M", "", "", ""⟩] ∨
        ClassOpt.cCount [⟨0, "F", "", "", ""⟩, ⟨1, "M", "", "", ""⟩]
            (fun _ _ => true) c =
          ClassOpt.target_ceil
            [⟨0, "F", "", "", ""⟩, ⟨1, "M", "", "", ""⟩])) ∧
    sizePenalty [⟨0, "A", "F"⟩, ⟨1, "B", "M"⟩] (fun _ g => g == 0) 1 2 =
      ((List.range 1).map
        (fun g => ((groupCount [⟨0, "A", "F"⟩, ⟨1, "B", "M"⟩]
          (fun _ g => g == 0) g : Int) - (2 : Int)).natAbs)).sum :=
  size_balance_penalty_terms [⟨0, "F", "", "", ""⟩, ⟨1, "M", "", "", ""⟩]
    (fun _ _ => true) [⟨0, "A", "F"⟩, ⟨1, "B", "M"⟩] (fun _ g => g == 0) 1 2

/-- C6: a prior-together pair whose two names resolve to distinct
students contributes, for each group, the pairing weight times the product
indicator of both being in that group, and the indicator is `1` exactly
when both assignment variables are set; a pair with an unresolvable name or
resolving to one single student contributes nothing; and the pairs never
influence the hard model or the returned value — only the objective. -/
theorem prior_pairing_soft (students : List Student) (a : Val) (gs : Nat)
    (same_sex : Bool) (rest : List (String × String)) (p : String × String)
    (id1 id2 : Nat)
    (h1 : nameToId students p.1 = some id1)
    (h2 : nameToId students p.2 = some id2)
    (hne : id1 ≠ id2) :
    objective gs same_sex students (p :: rest) a =
      ((List.range (numGroups students.length gs)).map
        (fun g => boolVal (a id1 g && a id2 g) * pair_weight)).sum +
        objective gs same_sex students rest a ∧
    (∀ g, boolVal (a id1 g && a id2 g) = 1 ↔
      (a id1 g = true ∧ a id2 g = true)) ∧
    (∀ q : String × String, ∀ rest' : List (String × String),
      (nameToId students q.1 = none ∨ nameToId students q.2 = none ∨
        nameToId students q.1 = nameToId students q.2) →
      objective gs same_sex students (q :: rest') a =
        objective gs same_sex students rest' a) ∧
    (∀ group_size : Int, ∀ prior1 prior2 : List (String × String),
      ∀ oracle : SolverOutcome,
      solve group_size same_sex students prior1 oracle =
        solve group_size same_sex students prior2 oracle) := by
  refine ⟨?_, ?_, ?_, ?_⟩
  · unfold objective
    rw [List.map_cons, List.sum_cons]
    have hp : pairPenalty students a (numGroups students.length gs) p =
        ((List.range (numGroups students.length gs)).map
          (fun g => boolVal (a id1 g && a id2 g) * pair_weight)).sum := by
      unfold pairPenalty
      rw [h1, h2]
      simp [hne]
    rw [hp]
    omega
  · intro g
    cases a id1 g <;> cases a id2 g <;> simp [boolVal]
  · intro q rest' hq
    have hq0 : pairPenalty students a (numGroups students.length gs) q = 0 := by
      unfold pairPenalty
      rcases hA : nameToId students q.1 with _ | i1 <;>
        rcases hB : nameToId students q.2 with _ | i2
      · rfl
      · rfl
      · rfl
      · rcases hq with hq | hq | hq
        · rw [hA] at hq; cases hq
        · rw [hB] at hq; cases hq
        · rw [hA, hB] at hq
          injection hq with hq
          simp [hq]
    unfold objective
    rw [List.map_cons, List.sum_cons, hq0]
    omega
  · intro group_size prior1 prior2 oracle
    rfl

/-- Witness for C6: two students named Ann and Bob, a prior pair on those
names resolving to ids 0 and 1. -/
theorem prior_pairing_soft_witness :
    objective 2 false [⟨0, "Ann", "F"⟩, ⟨1, "Bob", "M"⟩]
        [("Ann", "Bob")] (fun _ g => g == 0) =
      ((List.range (numGroups
          ([⟨0, "Ann", "F"⟩, ⟨1, "Bob", "M"⟩] : List Student).length 2)).map
        (fun g => boolVal ((fun _ g => g == 0) 0 g &&
          (fun _ g => g == 0) 1 g) * pair_weight)).sum +
        objective 2 false [⟨0, "Ann", "F"⟩, ⟨1, "Bob", "M"⟩] []
          (fun _ g => g == 0) ∧
    (∀ g, boolVal ((fun _ g => g == 0) 0 g && (fun _ g => g == 0) 1 g) = 1 ↔
      ((fun _ g => g == 0) 0 g = true ∧ (fun _ g => g == 0) 1 g = true)) ∧
    (∀ q : String × String, ∀ rest' : List (String × String),
      (nameToId [⟨0, "Ann", "F"⟩, ⟨1, "Bob", "M"⟩] q.1 = none ∨
        nameToId [⟨0, "Ann", "F"⟩, ⟨1, "Bob", "M"⟩] q.2 = none ∨
        nameToId [⟨0, "Ann", "F"⟩, ⟨1, "Bob", "M"⟩] q.1 =
          nameToId [⟨0, "Ann", "F"⟩, ⟨1, "Bob", "M"⟩] q.2) →
      objective 2 false [⟨0, "Ann", "F"⟩, ⟨1, "Bob", "M"⟩] (q :: rest')
          (fun _ g => g == 0) =
        objective 2 false [⟨0, "Ann", "F"⟩, ⟨1, "Bob", "M"⟩] rest'
          (fun _ g => g == 0)) ∧
    (∀ group_size : Int, ∀ prior1 prior2 : List (String × String),
      ∀ oracle : SolverOutcome,
      solve group_size false [⟨0, "Ann", "F"⟩, ⟨1, "Bob", "M"⟩] prior1 oracle =
        solve group_size false [⟨0, "Ann", "F"⟩, ⟨1, "Bob", "M"⟩] prior2
          oracle) :=
  prior_pairing_soft [⟨0, "Ann", "F"⟩, ⟨1, "Bob", "M"⟩] (fun _ g => g == 0) 2
    false [] ("Ann", "Bob") 0 1 (by decide) (by decide) (by decide)

/-- C7: for a non-empty batch and positive group size, `solve` returns
a grouping exactly when the solver status is OPTIMAL or FEASIBLE; on any
other status it raises the solver-failure error, exposing no partial
result. -/
theorem solve_status_protocol (group_size : Int) (same_sex : Bool)
    (students : List Student) (prior : List (String × String))
    (oracle : SolverOutcome)
    (hne : students ≠ []) (hgs : 0 < group_size) :
    ((∃ groups, solve group_size same_sex students prior oracle = .ok groups)
      ↔ (oracle.status = .optimal ∨ oracle.status = .feasible)) ∧
    (¬ (oracle.status = .optimal ∨ oracle.status = .feasible) →
      solve group_size same_sex students prior oracle =
        .error .solverFailed) := by
  have hlen : ¬ students.length = 0 := fun h => hne (List.length_eq_zero.mp h)
  have hgs' : ¬ group_size ≤ 0 := by omega
  constructor
  · constructor
    · rintro ⟨groups, hret⟩
      exact (solve_ok_inv hne hret).2.1
    · intro hst
      refine ⟨buildGroups students oracle.val
        (numGroups students.length group_size.toNat), ?_⟩
      unfold solve
      rw [if_neg hlen, if_neg hgs', if_pos hst]
  · intro hst
    unfold solve
    rw [if_neg hlen, if_neg hgs', if_neg hst]

/-- Witness for C7: one student, group size 1, an INFEASIBLE oracle. -/
theorem solve_status_protocol_witness :
    ((∃ groups, solve 1 false [⟨0, "A", "F"⟩] []
        ⟨.infeasible, fun _ _ => false⟩ = .ok groups)
      ↔ ((CpStatus.infeasible = .optimal ∨ CpStatus.infeasible = .feasible))) ∧
    (¬ (CpStatus.infeasible = .optimal ∨ CpStatus.infeasible = .feasible) →
      solve 1 false [⟨0, "A", "F"⟩] [] ⟨.infeasible, fun _ _ => false⟩ =
        .error .solverFailed) :=
  solve_status_protocol 1 false [⟨0, "A", "F"⟩] []
    ⟨.infeasible, fun _ _ => false⟩ (by decide) (by decide)

/-- C8 counterexample: with the empty student list and
`group_size = 0 ≤ 0`, `solve` returns one empty group — the empty-batch
early return runs before the group-size validation, so no
invalid-configuration error is raised. -/
theorem group_size_validation_counterexample :
    solve 0 false [] [] ⟨.infeasible, fun _ _ => false⟩ = .ok [[]] := rfl

/-- C8 amended: for every NON-empty student list and every
`group_size ≤ 0`, `solve` raises the invalid-configuration error before any
model construction (uniformly in the solver oracle); for the empty student
list it instead returns one empty group regardless of `group_size`. -/
theorem group_size_validation (group_size : Int) (same_sex : Bool)
    (students : List Student) (prior : List (String × String))
    (hne : students ≠ []) (hgs : group_size ≤ 0) :
    (∀ oracle : SolverOutcome,
      solve group_size same_sex students prior oracle =
        .error .invalidGroupSize) ∧
    (∀ oracle : SolverOutcome, ∀ gs' : Int,
      solve gs' same_sex [] prior oracle = .ok [[]]) := by
  constructor
  · intro oracle
    have hlen : ¬ students.length = 0 :=
      fun h => hne (List.length_eq_zero.mp h)
    unfold solve
    rw [if_neg hlen, if_pos hgs]
  · intro oracle gs'
    rfl

/-- Witness for C8's amended statement: one student, group size 0. -/
theorem group_size_validation_witness :
    (∀ oracle : SolverOutcome,
      solve 0 false [⟨0, "A", "F"⟩] [] oracle = .error .invalidGroupSize) ∧
    (∀ oracle : SolverOutcome, ∀ gs' : Int,
      solve gs' false [] [] oracle = .ok [[]]) :=
  group_size_validation 0 false [⟨0, "A", "F"⟩] [] (by decide) (by decide)

/-- C9 counterexample: the solver reports FEASIBLE with the all-false
valuation — which violates the exactly-one constraint for both students —
yet `solve` returns a grouping (two empty groups, both students silently
dropped) instead of rejecting the solution. -/
theorem defensive_check_counterexample :
    ¬ exactlyOne [⟨0, "A", "F"⟩, ⟨1, "B", "M"⟩] (fun _ _ => false)
        (numGroups 2 1) ∧
    solve 1 false [⟨0, "A", "F"⟩, ⟨1, "B", "M"⟩] []
      ⟨.feasible, fun _ _ => false⟩ = .ok [[], []] := by
  constructor
  · decide
  · rfl

/-- C9 amended: the materialisation performs no defensive check — on an
OPTIMAL or FEASIBLE status `solve` returns the groups built from the raw
valuation whether or not it satisfies exactly-one, assigning each student
to the first group whose variable is set, and a student with no set
variable is silently omitted from every group. -/
theorem no_defensive_check (group_size : Int) (same_sex : Bool)
    (students : List Student) (prior : List (String × String))
    (oracle : SolverOutcome)
    (hne : students ≠ []) (hgs : 0 < group_size)
    (hst : oracle.status = .optimal ∨ oracle.status = .feasible) :
    solve group_size same_sex students prior oracle =
      .ok (buildGroups students oracle.val
        (numGroups students.length group_size.toNat)) ∧
    (∀ s ∈ students,
      firstGroup oracle.val (numGroups students.length group_size.toNat)
          s.id = none →
      ∀ gr ∈ buildGroups students oracle.val
          (numGroups students.length group_size.toNat), s ∉ gr) := by
  have hlen : ¬ students.length = 0 := fun h => hne (List.length_eq_zero.mp h)
  have hgs' : ¬ group_size ≤ 0 := by omega
  constructor
  · unfold solve
    rw [if_neg hlen, if_neg hgs', if_pos hst]
  · intro s _ hnone gr hgr hsgr
    obtain ⟨g, _, rfl⟩ :=
      (mem_buildGroups_iff students oracle.val _ gr).mp hgr
    have hp := (List.mem_filter.mp hsgr).2
    rw [hnone] at hp
    simp at hp

/-- Witness for C9's amended statement: FEASIBLE status with the all-false
valuation; both students are omitted from the returned (empty) groups. -/
theorem no_defensive_check_witness :
    solve 1 false [⟨0, "A", "F"⟩, ⟨1, "B", "M"⟩] []
        ⟨.feasible, fun _ _ => false⟩ =
      .ok (buildGroups [⟨0, "A", "F"⟩, ⟨1, "B", "M"⟩] (fun _ _ => false)
        (numGroups 2 (1 : Int).toNat)) ∧
    (∀ s ∈ ([⟨0, "A", "F"⟩, ⟨1, "B", "M"⟩] : List Student),
      firstGroup (fun _ _ => false) (numGroups 2 (1 : Int).toNat) s.id =
        none →
      ∀ gr ∈ buildGroups [⟨0, "A", "F"⟩, ⟨1, "B", "M"⟩] (fun _ _ => false)
          (numGroups 2 (1 : Int).toNat), s ∉ gr) :=
  no_defensive_check 1 false [⟨0, "A", "F"⟩, ⟨1, "B", "M"⟩] []
    ⟨.feasible, fun _ _ => false⟩ (by decide) (by decide) (by decide)

/-- C10: a successful solve on `n ≥ 1` students with positive group
size returns exactly `ceil(n / group_size)` groups, and every returned
group is non-empty: an empty group would force the remaining groups to
exceed the capacity bound. -/
theorem groups_count_and_nonempty (group_size : Int) (same_sex : Bool)
    (students : List Student) (prior : List (String × String))
    (oracle : SolverOutcome) (groups : List (List Student))
    (hne : students ≠ [])
    (hfeas : hardSat group_size.toNat same_sex students oracle.val)
    (hret : solve group_size same_sex students prior oracle = .ok groups) :
    groups.length = numGroups students.length group_size.toNat ∧
    ∀ gr ∈ groups, gr ≠ [] := by
  obtain ⟨hgs, _, rfl⟩ := solve_ok_inv hne hret
  refine ⟨buildGroups_length _ _ _, ?_⟩
  intro gr hgr
  obtain ⟨g, hg, rfl⟩ :=
    (mem_buildGroups_iff students oracle.val _ gr).mp hgr
  rw [buildGroups_filter students oracle.val _ hfeas.1 hg]
  intro hempty
  have hcount : groupCount students oracle.val g = 0 := by
    rw [← length_filter_eq_groupCount, hempty]
    rfl
  have htot := sum_groupCount students oracle.val _ hfeas.1
  have hb : ((List.range (numGroups students.length group_size.toNat)).map
      (fun g' => groupCount students oracle.val g' +
        (if g = g' then group_size.toNat else 0))).sum ≤
      ((List.range (numGroups students.length group_size.toNat)).map
        (fun _ => group_size.toNat)).sum := by
    apply List.sum_le_sum
    intro g' hg'
    by_cases h : g = g'
    · subst h
      rw [hcount, if_pos rfl]
      omega
    · rw [if_neg h]
      have := hfeas.2.1 g' hg'
      omega
  rw [List.sum_map_add, htot,
    sum_range_if_eq group_size.toNat hg, List.map_const'] at hb
  rw [List.sum_replicate, smul_eq_mul, List.length_range] at hb
  have hub : numGroups students.length group_size.toNat *
      group_size.toNat ≤ students.length + group_size.toNat - 1 := by
    unfold numGroups
    exact Nat.div_mul_le_self _ _
  have hn1 : 1 ≤ students.length := List.length_pos.mpr hne
  omega

/-- Witness for C10: three students, group size 2, two groups of sizes two
and one. -/
theorem groups_count_and_nonempty_witness :
    ([[⟨0, "A", "F"⟩, ⟨1, "B", "M"⟩], [⟨2, "C", "F"⟩]] :
        List (List Student)).length = numGroups 3 (2 : Int).toNat ∧
    ∀ gr ∈ ([[⟨0, "A", "F"⟩, ⟨1, "B", "M"⟩], [⟨2, "C", "F"⟩]] :
        List (List Student)), gr ≠ [] :=
  groups_count_and_nonempty 2 false
    [⟨0, "A", "F"⟩, ⟨1, "B", "M"⟩, ⟨2, "C", "F"⟩] []
    ⟨.optimal, fun sid g => decide (sid ≤ 1) == (g == 0)⟩
    [[⟨0, "A", "F"⟩, ⟨1, "B", "M"⟩], [⟨2, "C", "F"⟩]]
    (by decide) (by decide) rfl

end StudyGroups
